import Mathlib

/-!
Verification of the SQL exploration loop of `sql-RAG.py`.

The embedding works over `List Char` for text.  The external SQLite
connection is modelled as a state-passing store function, and the external
LLM oracle as a list of replies consumed in order (an exhausted list models
a failing oracle call).
-/

set_option maxHeartbeats 1000000

/-- The backquote character, `` ` ``. -/
def bq : Char := ("`".toList).headD ' '

/-- The three-backtick code fence delimiter. -/
def codeFence : List Char := ("```").toList

/-- The opening tag of a sql-tagged fenced block. -/
def sqlOpenTag : List Char := ("```sql").toList

/-- The reserved final-answer marker, `FINAL ANSWER:`. -/
def finalMarker : List Char := ("FINAL ANSWER:").toList

/-- ASCII whitespace recognised by Python `str.strip`. -/
def isPySpace (c : Char) : Bool :=
  c == ' ' || c == '\t' || c == '\n' || c == '\r' || c == '\x0b' || c == '\x0c'

/-- Python `str.strip`: drop whitespace from both ends. -/
def strip (s : List Char) : List Char :=
  ((s.dropWhile isPySpace).reverse.dropWhile isPySpace).reverse

/-- Split a text at the first occurrence of `pat`: returns the part before
the occurrence and the part after it, or `none` when `pat` does not occur. -/
def splitFirst (pat : List Char) : List Char → Option (List Char × List Char)
  | [] => if pat.isEmpty then some ([], []) else none
  | c :: cs =>
    if pat.isPrefixOf (c :: cs) then some ([], (c :: cs).drop pat.length)
    else
      match splitFirst pat cs with
      | none => none
      | some (b, a) => some (c :: b, a)

/-- Predicate stating that `pat` occurs as a contiguous segment of `s`. -/
def Occurs (pat s : List Char) : Prop := ∃ u v, s = u ++ pat ++ v

/-- Fuelled scan implementing `re.findall(r"\x60\x60\x60sql(.*?)\x60\x60\x60", text, re.DOTALL)`
followed by `.strip()` on every capture: repeatedly find the next opening
tag, then the nearest closing fence, emit the stripped interior, continue
after the closing fence. -/
def extractAux : Nat → List Char → List (List Char)
  | 0, _ => []
  | fuel + 1, s =>
    match splitFirst sqlOpenTag s with
    | none => []
    | some (_, afterOpen) =>
      match splitFirst codeFence afterOpen with
      | none => []
      | some (body, rest) => strip body :: extractAux fuel rest

/-- Embedding of the source function `extract_sql`: all sql-tagged fenced
block interiors, stripped, in order of appearance. -/
def extract_sql (s : List Char) : List (List Char) :=
  extractAux (s.length + 1) s

/-- Python `str.replace(pat, repl, 1)`: replace the first occurrence only. -/
def replaceFirst (pat repl s : List Char) : List Char :=
  match splitFirst pat s with
  | none => s
  | some (b, a) => b ++ repl ++ a

-- ## Basic lemmas about `isPrefixOf` and `splitFirst`

theorem isPrefixOf_iff_ex (p : List Char) :
    ∀ s : List Char, p.isPrefixOf s = true ↔ ∃ t, s = p ++ t := by
  induction p with
  | nil =>
    intro s
    simp [List.isPrefixOf]
  | cons a as ih =>
    intro s
    cases s with
    | nil =>
      simp [List.isPrefixOf]
    | cons b bs =>
      simp only [List.isPrefixOf, Bool.and_eq_true, beq_iff_eq, ih bs,
        List.cons_append, List.cons.injEq]
      constructor
      · rintro ⟨rfl, t, rfl⟩; exact ⟨t, rfl, rfl⟩
      · rintro ⟨t, rfl, rfl⟩; exact ⟨rfl, t, rfl⟩

theorem splitFirst_sound (pat : List Char) :
    ∀ s b a, splitFirst pat s = some (b, a) → s = b ++ pat ++ a := by
  intro s
  induction s with
  | nil =>
    intro b a h
    by_cases hp : pat.isEmpty
    · simp [splitFirst, hp] at h
      obtain ⟨rfl, rfl⟩ := h
      simp [List.isEmpty_iff.mp hp]
    · simp [splitFirst, hp] at h
  | cons c cs ih =>
    intro b a h
    by_cases hp : pat.isPrefixOf (c :: cs) = true
    · simp [splitFirst, hp] at h
      obtain ⟨rfl, rfl⟩ := h
      obtain ⟨t, ht⟩ := (isPrefixOf_iff_ex pat (c :: cs)).mp hp
      rw [ht]
      simp [List.drop_left]
    · simp [splitFirst, hp] at h
      match hsp : splitFirst pat cs with
      | none => rw [hsp] at h; simp at h
      | some (b', a') =>
        rw [hsp] at h
        simp at h
        obtain ⟨h1, h2⟩ := h
        subst h1; subst h2
        simpa using ih b' a' hsp

theorem splitFirst_none_not_occurs (pat : List Char) :
    ∀ s, splitFirst pat s = none → ¬ Occurs pat s := by
  intro s
  induction s with
  | nil =>
    intro h hocc
    obtain ⟨u, v, huv⟩ := hocc
    have hu : u = [] := by
      cases u with
      | nil => rfl
      | cons x xs => simp at huv
    have hp : pat = [] := by
      subst hu
      cases pat with
      | nil => rfl
      | cons x xs => simp at huv
    simp [splitFirst, hp] at h
  | cons c cs ih =>
    intro h hocc
    by_cases hp : pat.isPrefixOf (c :: cs) = true
    · simp [splitFirst, hp] at h
    · simp only [splitFirst, hp, if_false] at h
      match hsp : splitFirst pat cs with
      | some (b', a') => rw [hsp] at h; simp at h
      | none =>
        obtain ⟨u, v, huv⟩ := hocc
        cases u with
        | nil =>
          simp at huv
          have : pat.isPrefixOf (c :: cs) = true :=
            (isPrefixOf_iff_ex pat (c :: cs)).mpr ⟨v, huv⟩
          exact hp this
        | cons x xs =>
          simp at huv
          exact ih hsp ⟨xs, v, by rw [List.append_assoc]; exact huv.2⟩

theorem occurs_of_occurs_append (x y s : List Char)
    (h : Occurs (x ++ y) s) : Occurs x s := by
  obtain ⟨u, v, huv⟩ := h
  exact ⟨u, y ++ v, by simp [huv]⟩

theorem splitFirst_of_pre (pat s : List Char) (hne : pat ≠ [])
    (h : pat.isPrefixOf s = true) :
    splitFirst pat s = some ([], s.drop pat.length) := by
  cases s with
  | nil =>
    obtain ⟨t, ht⟩ := (isPrefixOf_iff_ex pat []).mp h
    have : pat = [] := by
      cases pat with
      | nil => rfl
      | cons x xs => simp at ht
    exact absurd this hne
  | cons c cs => simp [splitFirst, h]

theorem splitFirst_cons (pat : List Char) (c : Char) (cs : List Char) :
    splitFirst pat (c :: cs) =
      if pat.isPrefixOf (c :: cs) then some ([], (c :: cs).drop pat.length)
      else
        match splitFirst pat cs with
        | none => none
        | some (b, a) => some (c :: b, a) := rfl

theorem splitFirst_boundary (pat : List Char) (hne : pat ≠ []) :
    ∀ xs ys, (∀ i, i < xs.length → pat.isPrefixOf ((xs ++ pat ++ ys).drop i) = false) →
      splitFirst pat (xs ++ pat ++ ys) = some (xs, ys) := by
  intro xs
  induction xs with
  | nil =>
    intro ys _
    have hp : pat.isPrefixOf (pat ++ ys) = true :=
      (isPrefixOf_iff_ex pat (pat ++ ys)).mpr ⟨ys, rfl⟩
    rw [List.nil_append, splitFirst_of_pre pat (pat ++ ys) hne hp, List.drop_left]
  | cons c cs ih =>
    intro ys hno
    have h0 : pat.isPrefixOf (c :: (cs ++ (pat ++ ys))) = false := by
      have h := hno 0 (by simp)
      simpa using h
    have hrest : splitFirst pat (cs ++ pat ++ ys) = some (cs, ys) := by
      apply ih
      intro i hi
      have h := hno (i + 1) (by simpa using Nat.succ_lt_succ hi)
      simpa using h
    have hassoc : (c :: cs) ++ pat ++ ys = c :: (cs ++ pat ++ ys) := by simp
    rw [hassoc, splitFirst_cons, if_neg (by simp [h0]), hrest]

-- ## Occurrence analysis: where a pattern can match around a block boundary

theorem occPrefix_decomp (pat seg tail : List Char) (i : Nat) (hi : i < seg.length)
    (hp : pat.isPrefixOf ((seg ++ (pat ++ tail)).drop i) = true) :
    (pat.length ≤ seg.length - i ∧ Occurs pat seg) ∨
    (seg.length - i < pat.length ∧ seg.drop i = pat.take (seg.length - i) ∧
      pat.take (pat.length - (seg.length - i)) = pat.drop (seg.length - i)) := by
  obtain ⟨t, ht⟩ := (isPrefixOf_iff_ex _ _).mp hp
  rw [List.drop_append_of_le_length (le_of_lt hi)] at ht
  have hku : (seg.drop i).length = seg.length - i := List.length_drop i seg
  by_cases hk : pat.length ≤ seg.length - i
  · left
    refine ⟨hk, ?_⟩
    have h6 : (seg.drop i).take pat.length = pat := by
      have h := congrArg (List.take pat.length) ht
      rw [List.take_append_of_le_length (by rw [hku]; exact hk), List.take_left] at h
      exact h
    have hdec : seg.drop i = pat ++ (seg.drop i).drop pat.length := by
      conv_lhs => rw [← List.take_append_drop pat.length (seg.drop i)]
      rw [h6]
    refine ⟨seg.take i, (seg.drop i).drop pat.length, ?_⟩
    conv_lhs => rw [← List.take_append_drop i seg, hdec]
    simp
  · right
    have hklt : seg.length - i < pat.length := Nat.lt_of_not_le hk
    refine ⟨hklt, ?_, ?_⟩
    · have h := congrArg (List.take (seg.length - i)) ht
      rw [← hku, List.take_left,
        List.take_append_of_le_length (by rw [hku] at *; exact le_of_lt hklt)] at h
      rw [hku] at h
      exact h
    · have h := congrArg (List.drop (seg.length - i)) ht
      rw [← hku, List.drop_left,
        List.drop_append_of_le_length (by rw [hku] at *; exact le_of_lt hklt)] at h
      rw [hku] at h
      have hlen2 : (List.drop (seg.length - i) pat).length = pat.length - (seg.length - i) :=
        List.length_drop _ _
      have h2 := congrArg (List.take (pat.length - (seg.length - i))) h
      rw [List.take_append_of_le_length (Nat.sub_le _ _),
        List.take_append_of_le_length (le_of_eq hlen2.symm)] at h2
      have h3 : (List.drop (seg.length - i) pat).take (pat.length - (seg.length - i)) =
          List.drop (seg.length - i) pat := by
        rw [← hlen2, List.take_length]
      rw [h3] at h2
      exact h2

/-- Absence of a three-backtick fence, phrased through the scanner. -/
def NoFence (s : List Char) : Prop := splitFirst codeFence s = none

theorem sqlOpenTag_eq : sqlOpenTag = codeFence ++ ("sql").toList := by decide

theorem noFence_not_occurs {s : List Char} (h : NoFence s) : ¬ Occurs codeFence s :=
  splitFirst_none_not_occurs codeFence s h

theorem noFence_not_occurs_open {s : List Char} (h : NoFence s) :
    ¬ Occurs sqlOpenTag s := by
  intro hocc
  rw [sqlOpenTag_eq] at hocc
  exact noFence_not_occurs h (occurs_of_occurs_append _ _ _ hocc)

theorem noEarlier_open (seg ys : List Char) (hseg : NoFence seg) :
    ∀ i, i < seg.length →
      sqlOpenTag.isPrefixOf ((seg ++ sqlOpenTag ++ ys).drop i) = false := by
  intro i hi
  by_contra hc
  have hp : sqlOpenTag.isPrefixOf ((seg ++ (sqlOpenTag ++ ys)).drop i) = true := by
    rw [← List.append_assoc]
    simpa using hc
  rcases occPrefix_decomp sqlOpenTag seg ys i hi hp with ⟨_, hocc⟩ | ⟨hlt, _, hper⟩
  · exact noFence_not_occurs_open hseg hocc
  · set k := seg.length - i with hkdef
    have hk1 : 1 ≤ k := by omega
    have hk5 : k < sqlOpenTag.length := hlt
    have hk5' : k < 6 := by simpa [sqlOpenTag] using hk5
    interval_cases k <;> revert hper <;> decide

theorem noEarlier_fence (body ys : List Char) (hbody : NoFence body)
    (hlast : body.getLast? ≠ some bq) :
    ∀ i, i < body.length →
      codeFence.isPrefixOf ((body ++ codeFence ++ ys).drop i) = false := by
  intro i hi
  by_contra hc
  have hp : codeFence.isPrefixOf ((body ++ (codeFence ++ ys)).drop i) = true := by
    rw [← List.append_assoc]
    simpa using hc
  rcases occPrefix_decomp codeFence body ys i hi hp with ⟨_, hocc⟩ | ⟨hlt, hu, _⟩
  · exact noFence_not_occurs hbody hocc
  · apply hlast
    have hne : body.drop i ≠ [] := by
      intro h0
      have := congrArg List.length h0
      simp at this
      omega
    have h1 : body.getLast? = (body.drop i).getLast? := by
      conv_lhs => rw [← List.take_append_drop i body]
      exact List.getLast?_append_of_ne_nil _ hne
    rw [h1, hu]
    set k := body.length - i with hkdef
    have hk1 : 1 ≤ k := by omega
    have hk3 : k < 3 := by simpa [codeFence] using hlt
    interval_cases k <;> decide

-- ## Well-formed texts built from sql-tagged fenced blocks

/-- Concatenation of sql-tagged fenced blocks, each followed by a trailing
text segment: `mkBlocks [(b1,s1),...] = TAG b1 FENCE s1 TAG b2 FENCE s2 ...`. -/
def mkBlocks : List (List Char × List Char) → List Char
  | [] => []
  | (b, s) :: t => sqlOpenTag ++ b ++ codeFence ++ s ++ mkBlocks t

/-- Text consisting of a leading segment followed by sql-tagged blocks with
interleaved segments. -/
def mkText (seg0 : List Char) (blocks : List (List Char × List Char)) : List Char :=
  seg0 ++ mkBlocks blocks

/-- Well-formed block: the interior has no stray fence and does not end in a
backquote, and the following segment has no fence. -/
def BlockOk (p : List Char × List Char) : Prop :=
  NoFence p.1 ∧ p.1.getLast? ≠ some bq ∧ NoFence p.2

instance (s : List Char) : Decidable (NoFence s) := by
  unfold NoFence; infer_instance

instance (p : List Char × List Char) : Decidable (BlockOk p) := by
  unfold BlockOk; infer_instance

theorem splitFirst_open_none {s : List Char} (h : NoFence s) :
    splitFirst sqlOpenTag s = none := by
  match hsp : splitFirst sqlOpenTag s with
  | none => rfl
  | some (b, a) =>
    exact absurd ⟨b, a, splitFirst_sound _ _ _ _ hsp⟩ (noFence_not_occurs_open h)

theorem extractAux_mkText :
    ∀ (blocks : List (List Char × List Char)) (seg0 : List Char) (fuel : Nat),
      blocks.length < fuel → NoFence seg0 → (∀ p ∈ blocks, BlockOk p) →
      extractAux fuel (seg0 ++ mkBlocks blocks) = blocks.map (fun p => strip p.1) := by
  intro blocks
  induction blocks with
  | nil =>
    intro seg0 fuel hf h0 _
    obtain ⟨f, rfl⟩ : ∃ f, fuel = f + 1 := ⟨fuel - 1, by omega⟩
    simp only [mkBlocks, List.append_nil, List.map_nil]
    simp only [extractAux, splitFirst_open_none h0]
  | cons p t ih =>
    obtain ⟨b, s2⟩ := p
    intro seg0 fuel hf h0 hblocks
    obtain ⟨f, rfl⟩ : ∃ f, fuel = f + 1 := ⟨fuel - 1, by omega⟩
    have hb : BlockOk (b, s2) := hblocks _ (by simp)
    have hshape : seg0 ++ mkBlocks ((b, s2) :: t) =
        seg0 ++ sqlOpenTag ++ (b ++ codeFence ++ (s2 ++ mkBlocks t)) := by
      simp [mkBlocks]
    rw [hshape]
    have hopen : splitFirst sqlOpenTag
        (seg0 ++ sqlOpenTag ++ (b ++ codeFence ++ (s2 ++ mkBlocks t))) =
        some (seg0, b ++ codeFence ++ (s2 ++ mkBlocks t)) :=
      splitFirst_boundary sqlOpenTag (by decide) seg0 _ (noEarlier_open seg0 _ h0)
    have hclose : splitFirst codeFence (b ++ codeFence ++ (s2 ++ mkBlocks t)) =
        some (b, s2 ++ mkBlocks t) :=
      splitFirst_boundary codeFence (by decide) b _
        (noEarlier_fence b _ hb.1 hb.2.1)
    have hf' : t.length < f := by
      simp only [List.length_cons] at hf
      omega
    simp only [extractAux, hopen, hclose, List.map_cons]
    rw [ih s2 f hf' hb.2.2 (fun q hq => hblocks q (by simp [hq]))]

theorem mkBlocks_length_le (blocks : List (List Char × List Char)) :
    blocks.length ≤ (mkBlocks blocks).length := by
  induction blocks with
  | nil => simp [mkBlocks]
  | cons p t ih =>
    obtain ⟨b, s⟩ := p
    have h6 : sqlOpenTag.length = 6 := by decide
    simp only [mkBlocks, List.length_append, List.length_cons]
    omega

theorem extract_sql_mkText (seg0 : List Char)
    (blocks : List (List Char × List Char)) (h0 : NoFence seg0)
    (hb : ∀ p ∈ blocks, BlockOk p) :
    extract_sql (mkText seg0 blocks) = blocks.map (fun p => strip p.1) := by
  unfold extract_sql mkText
  apply extractAux_mkText _ _ _ _ h0 hb
  have h1 := mkBlocks_length_le blocks
  simp only [List.length_append]
  omega

theorem extract_sql_no_tag {s : List Char}
    (h : splitFirst sqlOpenTag s = none) : extract_sql s = [] := by
  unfold extract_sql
  simp only [extractAux, h]

-- ## The exploration controller of `main`

/-- Result of one query against the store: the fetched rows, or the error
text built by the `except` branch of `execute_sql`. -/
inductive ExecResult where
  | rows (rs : List (List Int))
  | error (msg : List Char)
deriving DecidableEq

/-- One entry of the conversation transcript (the `messages` list). -/
inductive Turn where
  | system (content : List Char)
  | user (content : List Char)
  | assistant (content : List Char)
  | function (name : List Char) (result : ExecResult)
deriving DecidableEq

/-- Terminal status of one question's inner exploration loop. -/
inductive Outcome where
  | resolved (answer : List Char)
  | exhausted
  | oracleError
deriving DecidableEq

/-- Final state of one question's exploration. -/
structure RunResult (DB : Type) where
  outcome : Outcome
  transcript : List Turn
  db : DB
deriving DecidableEq

/-- External query store (the sqlite connection): takes the current database
state and a query, returns rows or an error message, plus the new state. -/
def Store (DB : Type) : Type :=
  DB → List Char → Except (List Char) (List (List Int)) × DB

/-- Name under which observations are recorded, the literal `sql`. -/
def sqlName : List Char := ("sql").toList

/-- Error text produced by the `except` branch: `Error: {e}`. -/
def errorText (e : List Char) : List Char := ("Error: ").toList ++ e

/-- Attempt budget: the source gives up once `total_queries > 5`. -/
def maxAttempts : Nat := 5

/-- Embedding of `execute_sql`: run the query; a store failure is caught and
returned as an error string, never raised. -/
def execute_sql {DB : Type} (store : Store DB) (db : DB) (query : List Char) :
    ExecResult × DB :=
  match store db query with
  | (Except.ok rs, db') => (ExecResult.rows rs, db')
  | (Except.error e, db') => (ExecResult.error (errorText e), db')

/-- Embedding of the `for query in sql_queries` loop of `main`: execute each
query in order, appending one function-role message per query. -/
def execLoop {DB : Type} (store : Store DB) :
    List (List Char) → List Turn → DB → List Turn × DB
  | [], msgs, db => (msgs, db)
  | q :: qs, msgs, db =>
    let p := execute_sql store db q
    execLoop store qs (msgs ++ [Turn.function sqlName p.1]) p.2

/-- Embedding of the inner `while True` loop of `main`, driving one question.
The oracle is a list of replies consumed in order; an empty list at a call
site models a failing oracle call (`call_gpt` raising).  `tq` is
`total_queries` before the increment at the top of the loop body. -/
def runLoop {DB : Type} (store : Store DB) :
    List (List Char) → Nat → List Turn → DB → RunResult DB
  | [], tq, msgs, db =>
    if tq + 1 > maxAttempts then ⟨Outcome.exhausted, msgs, db⟩
    else ⟨Outcome.oracleError, msgs, db⟩
  | r :: rs, tq, msgs, db =>
    if tq + 1 > maxAttempts then ⟨Outcome.exhausted, msgs, db⟩
    else if finalMarker.isPrefixOf (strip r) then
      ⟨Outcome.resolved (strip (replaceFirst finalMarker [] (strip r))),
        msgs ++ [Turn.assistant r], db⟩
    else
      let qs := extract_sql r
      if qs.isEmpty then
        runLoop store rs (tq + 1) (msgs ++ [Turn.assistant r]) db
      else
        let p := execLoop store qs msgs db
        runLoop store rs (tq + 1) (p.1 ++ [Turn.assistant r]) p.2

/-- Contents of the assistant turns of a transcript, in order. -/
def assistantsOf (ts : List Turn) : List (List Char) :=
  ts.filterMap fun t =>
    match t with
    | Turn.assistant c => some c
    | _ => none

/-- Observation test on turns. -/
def isObs (t : Turn) : Bool :=
  match t with
  | Turn.function _ _ => true
  | _ => false

/-- Number of observation turns of a transcript. -/
def countObs (ts : List Turn) : Nat := (ts.filter isObs).length

/-- Sequential results of a command list: one result per command, each
executed against the state left by its predecessors. -/
def seqResults {DB : Type} (store : Store DB) : DB → List (List Char) → List ExecResult
  | _, [] => []
  | db, q :: qs =>
    (execute_sql store db q).1 :: seqResults store (execute_sql store db q).2 qs

/-- Database state after executing a command list sequentially. -/
def seqState {DB : Type} (store : Store DB) : DB → List (List Char) → DB
  | db, [] => db
  | db, q :: qs => seqState store (execute_sql store db q).2 qs

-- ## Helper lemmas about the loop

theorem execLoop_shift {DB : Type} (store : Store DB) :
    ∀ (qs : List (List Char)) (msgs : List Turn) (db : DB),
      execLoop store qs msgs db =
        (msgs ++ (execLoop store qs [] db).1, (execLoop store qs [] db).2) := by
  intro qs
  induction qs with
  | nil => intro msgs db; simp [execLoop]
  | cons q qs ih =>
    intro msgs db
    simp only [execLoop, List.nil_append]
    rw [ih (msgs ++ [Turn.function sqlName (execute_sql store db q).1]),
      ih [Turn.function sqlName (execute_sql store db q).1]]
    simp

theorem execLoop_eq_seq {DB : Type} (store : Store DB) :
    ∀ (qs : List (List Char)) (db : DB),
      execLoop store qs [] db =
        ((seqResults store db qs).map (Turn.function sqlName),
          seqState store db qs) := by
  intro qs
  induction qs with
  | nil => intro db; simp [execLoop, seqResults, seqState]
  | cons q qs ih =>
    intro db
    simp only [execLoop, seqResults, seqState, List.map_cons]
    rw [execLoop_shift, ih]
    simp

theorem seqResults_length {DB : Type} (store : Store DB) :
    ∀ (qs : List (List Char)) (db : DB),
      (seqResults store db qs).length = qs.length := by
  intro qs
  induction qs with
  | nil => intro db; simp [seqResults]
  | cons q qs ih => intro db; simp [seqResults, ih]

theorem assistantsOf_append (a b : List Turn) :
    assistantsOf (a ++ b) = assistantsOf a ++ assistantsOf b := by
  simp [assistantsOf]

theorem assistantsOf_obs (rs : List ExecResult) :
    assistantsOf (rs.map (Turn.function sqlName)) = [] := by
  induction rs with
  | nil => simp [assistantsOf]
  | cons r t ih => simp [assistantsOf]

theorem countObs_append (a b : List Turn) :
    countObs (a ++ b) = countObs a + countObs b := by
  simp [countObs]

theorem execute_sql_state {DB : Type} (store : Store DB) (db : DB) (q : List Char) :
    (execute_sql store db q).2 = (store db q).2 := by
  unfold execute_sql
  match h : store db q with
  | (Except.ok rs, db') => simp
  | (Except.error e, db') => simp

theorem runLoop_over {DB : Type} (store : Store DB) (replies : List (List Char))
    (tq : Nat) (msgs : List Turn) (db : DB) (htq : tq + 1 > maxAttempts) :
    runLoop store replies tq msgs db = ⟨Outcome.exhausted, msgs, db⟩ := by
  cases replies <;> simp [runLoop, htq]

theorem runLoop_noReply {DB : Type} (store : Store DB) (tq : Nat) (msgs : List Turn)
    (db : DB) (htq : ¬ tq + 1 > maxAttempts) :
    runLoop store [] tq msgs db = ⟨Outcome.oracleError, msgs, db⟩ := by
  simp [runLoop, htq]

theorem runLoop_final {DB : Type} (store : Store DB) (r : List Char)
    (rs : List (List Char)) (tq : Nat) (msgs : List Turn) (db : DB)
    (htq : ¬ tq + 1 > maxAttempts)
    (hm : finalMarker.isPrefixOf (strip r) = true) :
    runLoop store (r :: rs) tq msgs db =
      ⟨Outcome.resolved (strip (replaceFirst finalMarker [] (strip r))),
        msgs ++ [Turn.assistant r], db⟩ := by
  simp only [runLoop]
  rw [if_neg htq, if_pos hm]

theorem runLoop_continue {DB : Type} (store : Store DB) (r : List Char)
    (rs : List (List Char)) (tq : Nat) (msgs : List Turn) (db : DB)
    (htq : ¬ tq + 1 > maxAttempts)
    (hm : finalMarker.isPrefixOf (strip r) = false) :
    runLoop store (r :: rs) tq msgs db =
      runLoop store rs (tq + 1)
        ((execLoop store (extract_sql r) msgs db).1 ++ [Turn.assistant r])
        (execLoop store (extract_sql r) msgs db).2 := by
  simp only [runLoop]
  rw [if_neg htq, if_neg (by simp [hm])]
  by_cases hq : (extract_sql r).isEmpty
  · have hq' : extract_sql r = [] := List.isEmpty_iff.mp hq
    simp [hq, hq', execLoop]
  · simp [hq]

theorem assistantsOf_execLoop {DB : Type} (store : Store DB)
    (qs : List (List Char)) (msgs : List Turn) (db : DB) :
    assistantsOf ((execLoop store qs msgs db).1) = assistantsOf msgs := by
  rw [execLoop_shift, execLoop_eq_seq]
  simp [assistantsOf_append, assistantsOf_obs]

theorem replaceFirst_marker {s : List Char} (h : finalMarker.isPrefixOf s = true) :
    replaceFirst finalMarker [] s = s.drop finalMarker.length := by
  unfold replaceFirst
  rw [splitFirst_of_pre finalMarker s (by decide) h]
  simp

theorem runLoop_exhausts_general {DB : Type} (store : Store DB) :
    ∀ (replies : List (List Char)) (tq : Nat) (msgs : List Turn) (db : DB),
      (∀ r ∈ replies, finalMarker.isPrefixOf (strip r) = false) →
      tq ≤ maxAttempts → maxAttempts - tq ≤ replies.length →
      (runLoop store replies tq msgs db).outcome = Outcome.exhausted ∧
      assistantsOf (runLoop store replies tq msgs db).transcript =
        assistantsOf msgs ++ replies.take (maxAttempts - tq) := by
  intro replies
  induction replies with
  | nil =>
    intro tq msgs db _ hle hlen
    simp only [List.length_nil, Nat.le_zero] at hlen
    rw [runLoop_over store [] tq msgs db (by omega)]
    simp [hlen]
  | cons r rs ih =>
    intro tq msgs db hmk hle hlen
    by_cases htq : tq + 1 > maxAttempts
    · have htqe : maxAttempts - tq = 0 := by omega
      rw [runLoop_over store _ tq msgs db htq]
      simp [htqe]
    · have hm := hmk r (by simp)
      rw [runLoop_continue store r rs tq msgs db htq hm]
      have hlen' : maxAttempts - (tq + 1) ≤ rs.length := by
        simp only [List.length_cons] at hlen
        omega
      obtain ⟨ho, ht⟩ := ih (tq + 1)
        ((execLoop store (extract_sql r) msgs db).1 ++ [Turn.assistant r])
        (execLoop store (extract_sql r) msgs db).2
        (fun x hx => hmk x (by simp [hx])) (by omega) hlen'
      refine ⟨ho, ?_⟩
      rw [ht, assistantsOf_append, assistantsOf_execLoop]
      have htake : (r :: rs).take (maxAttempts - tq) =
          r :: rs.take (maxAttempts - (tq + 1)) := by
        have he : maxAttempts - tq = (maxAttempts - (tq + 1)) + 1 := by omega
        rw [he, List.take_succ_cons]
      rw [htake]
      simp [assistantsOf]

-- ## Concrete stores and inputs used by the witnesses

/-- Read-only store answering every query with the single row `(1,)`. -/
def wStore : Store Nat := fun db _ => (Except.ok [[1]], db)

/-- Five oracle replies, none carrying the final-answer marker. -/
def wReplies : List (List Char) :=
  [("a").toList, ("b").toList, ("c").toList, ("d").toList, ("e").toList]

/-- C1: when no reply starts with the final-answer marker, the loop makes
exactly `maxAttempts = 5` oracle calls — the assistant turns appended are
exactly the first five replies — and ends in the `Exhausted` terminal state,
whose result carries no answer. -/
theorem c1_budget_exhausted {DB : Type} (store : Store DB) (db : DB)
    (replies : List (List Char)) (msgs : List Turn)
    (hmk : ∀ r ∈ replies, finalMarker.isPrefixOf (strip r) = false)
    (hlen : maxAttempts ≤ replies.length) :
    (runLoop store replies 0 msgs db).outcome = Outcome.exhausted ∧
    assistantsOf (runLoop store replies 0 msgs db).transcript =
      assistantsOf msgs ++ replies.take maxAttempts := by
  have h := runLoop_exhausts_general store replies 0 msgs db hmk
    (by omega) (by simpa using hlen)
  simpa using h

/-- Witness for C1 at a concrete five-reply run. -/
theorem c1_budget_exhausted_witness :
    (∀ r ∈ wReplies, finalMarker.isPrefixOf (strip r) = false) ∧
    maxAttempts ≤ wReplies.length ∧
    ((runLoop wStore wReplies 0 [] 0).outcome = Outcome.exhausted ∧
      assistantsOf (runLoop wStore wReplies 0 [] 0).transcript =
        assistantsOf [] ++ wReplies.take maxAttempts) :=
  ⟨by decide, by decide,
    c1_budget_exhausted wStore 0 wReplies [] (by decide) (by decide)⟩

/-- C4: a reply whose trimmed text starts with `FINAL ANSWER:` resolves the
loop; the answer is the text after the marker with surrounding whitespace
trimmed (the empty string when nothing is left), one assistant turn is
appended, the state is unchanged, and no retry happens. -/
theorem c4_final_answer {DB : Type} (store : Store DB) (db : DB)
    (msgs : List Turn) (tq : Nat) (r : List Char) (rs : List (List Char))
    (htq : tq + 1 ≤ maxAttempts)
    (hm : finalMarker.isPrefixOf (strip r) = true) :
    runLoop store (r :: rs) tq msgs db =
      ⟨Outcome.resolved (strip ((strip r).drop finalMarker.length)),
        msgs ++ [Turn.assistant r], db⟩ := by
  rw [runLoop_final store r rs tq msgs db (by omega) hm, replaceFirst_marker hm]

/-- Reply with an empty remainder after the final-answer marker. -/
def wrEmptyFinal : List Char := ("  FINAL ANSWER:   ").toList

/-- Witness for C4: the malformed final answer yields the empty answer. -/
theorem c4_final_answer_witness :
    0 + 1 ≤ maxAttempts ∧
    finalMarker.isPrefixOf (strip wrEmptyFinal) = true ∧
    runLoop wStore [wrEmptyFinal] 0 [] 0 =
      ⟨Outcome.resolved [], [Turn.assistant wrEmptyFinal], 0⟩ :=
  ⟨by decide, by decide,
    (c4_final_answer wStore 0 [] 0 wrEmptyFinal [] (by decide) (by decide)).trans
      (by decide)⟩

/-- C5: final-marker detection takes priority over command execution — a
final reply that also carries sql-tagged blocks resolves with exactly one
assistant turn appended, no new observation, and an unchanged store state. -/
theorem c5_marker_priority {DB : Type} (store : Store DB) (db : DB)
    (msgs : List Turn) (tq : Nat) (r : List Char) (rs : List (List Char))
    (htq : tq + 1 ≤ maxAttempts)
    (hm : finalMarker.isPrefixOf (strip r) = true)
    (_hsql : extract_sql r ≠ []) :
    (∃ a, (runLoop store (r :: rs) tq msgs db).outcome = Outcome.resolved a) ∧
    (runLoop store (r :: rs) tq msgs db).transcript = msgs ++ [Turn.assistant r] ∧
    countObs (runLoop store (r :: rs) tq msgs db).transcript = countObs msgs ∧
    (runLoop store (r :: rs) tq msgs db).db = db := by
  rw [runLoop_final store r rs tq msgs db (by omega) hm]
  refine ⟨⟨_, rfl⟩, rfl, ?_, rfl⟩
  rw [countObs_append]
  simp [countObs, isObs]

/-- Final reply that also contains a sql-tagged block. -/
def wrFinalWithSql : List Char :=
  ("FINAL ANSWER: 42 ```sql SELECT 1;```").toList

/-- Witness for C5 at a final reply carrying a sql block. -/
theorem c5_marker_priority_witness :
    0 + 1 ≤ maxAttempts ∧
    finalMarker.isPrefixOf (strip wrFinalWithSql) = true ∧
    extract_sql wrFinalWithSql ≠ [] ∧
    ((∃ a, (runLoop wStore [wrFinalWithSql] 0 [] 0).outcome = Outcome.resolved a) ∧
      (runLoop wStore [wrFinalWithSql] 0 [] 0).transcript =
        [] ++ [Turn.assistant wrFinalWithSql] ∧
      countObs (runLoop wStore [wrFinalWithSql] 0 [] 0).transcript = countObs [] ∧
      (runLoop wStore [wrFinalWithSql] 0 [] 0).db = 0) :=
  ⟨by decide, by decide, by decide,
    c5_marker_priority wStore 0 [] 0 wrFinalWithSql [] (by decide) (by decide)
      (by decide)⟩

/-- C8: a failing oracle call surfaces as a question-level failure — the run
ends with the `oracleError` outcome, the transcript is unchanged, and no
answer is fabricated (the outcome is not `resolved`). -/
theorem c8_oracle_failure {DB : Type} (store : Store DB) (db : DB)
    (msgs : List Turn) (tq : Nat) (htq : tq + 1 ≤ maxAttempts) :
    runLoop store [] tq msgs db = ⟨Outcome.oracleError, msgs, db⟩ ∧
    ∀ a, (runLoop store [] tq msgs db).outcome ≠ Outcome.resolved a := by
  have h := runLoop_noReply store tq msgs db (by omega)
  refine ⟨h, fun a => ?_⟩
  rw [h]
  simp

/-- Witness for C8 at the first oracle call. -/
theorem c8_oracle_failure_witness :
    0 + 1 ≤ maxAttempts ∧
    (runLoop wStore [] 0 [] 0 = ⟨Outcome.oracleError, [], 0⟩ ∧
      ∀ a, (runLoop wStore [] 0 [] 0).outcome ≠ Outcome.resolved a) :=
  ⟨by decide, c8_oracle_failure wStore 0 [] 0 (by decide)⟩

-- ## Transcript ordering around command execution

deriving instance DecidableEq for Except

/-- Store for the Scenario B runs: `SELECT 1;` yields the row `(1,)`, any
other query fails. -/
def wStoreB : Store Nat := fun db q =>
  if q = ("SELECT 1;").toList then (Except.ok [[1]], db)
  else (Except.error ("no such table").toList, db)

/-- Scenario B first reply: one sql-tagged block. -/
def rB1 : List Char := ("```sql\nSELECT 1;\n```").toList

/-- Scenario B second reply: the final answer. -/
def rB2 : List Char := ("FINAL ANSWER: one").toList

/-- Counterexample to C3: in the Scenario B run the observation turn comes
FIRST, before its originating assistant turn — the transcript is
Observation, Assistant, Assistant, not Assistant, Observation, Assistant. -/
theorem c3_counterexample :
    (runLoop wStoreB [rB1, rB2] 0 [] 0).transcript =
      [Turn.function sqlName (ExecResult.rows [[1]]),
        Turn.assistant rB1, Turn.assistant rB2] ∧
    (runLoop wStoreB [rB1, rB2] 0 [] 0).transcript ≠
      [Turn.assistant rB1,
        Turn.function sqlName (ExecResult.rows [[1]]),
        Turn.assistant rB2] := by
  constructor
  · decide
  · decide

/-- C3 amended: the assistant reply is appended AFTER the observation turns
produced by executing its commands, so every observation precedes its
originating assistant turn; one observation is appended per extracted
command, in extraction order (Scenario B generalised). -/
theorem c3_amended_obs_before_assistant {DB : Type} (store : Store DB) (db : DB)
    (msgs : List Turn) (r f : List Char) (rs : List (List Char))
    (hm : finalMarker.isPrefixOf (strip r) = false)
    (hf : finalMarker.isPrefixOf (strip f) = true) :
    (runLoop store (r :: f :: rs) 0 msgs db).transcript =
      msgs ++ (seqResults store db (extract_sql r)).map (Turn.function sqlName)
        ++ [Turn.assistant r] ++ [Turn.assistant f] ∧
    (seqResults store db (extract_sql r)).length = (extract_sql r).length := by
  rw [runLoop_continue store r (f :: rs) 0 msgs db (by decide) hm]
  rw [runLoop_final store f rs (0 + 1) _ _ (by decide) hf]
  constructor
  · rw [execLoop_shift, execLoop_eq_seq]
  · exact seqResults_length store (extract_sql r) db

/-- Witness for the amended C3 at the Scenario B run. -/
theorem c3_amended_obs_before_assistant_witness :
    finalMarker.isPrefixOf (strip rB1) = false ∧
    finalMarker.isPrefixOf (strip rB2) = true ∧
    ((runLoop wStoreB [rB1, rB2] 0 [] 0).transcript =
      [] ++ (seqResults wStoreB 0 (extract_sql rB1)).map (Turn.function sqlName)
        ++ [Turn.assistant rB1] ++ [Turn.assistant rB2] ∧
    (seqResults wStoreB 0 (extract_sql rB1)).length = (extract_sql rB1).length) :=
  ⟨by decide, by decide,
    c3_amended_obs_before_assistant wStoreB 0 [] rB1 rB2 [] (by decide) (by decide)⟩

/-- C6: a store failure is captured as data — the error text becomes an
observation turn — the remaining commands still run, and the loop proceeds
to its next iteration instead of aborting. -/
theorem c6_store_failure_captured {DB : Type} (store : Store DB) (db db1 : DB)
    (msgs : List Turn) (tq : Nat) (r : List Char) (rs qs' : List (List Char))
    (q e : List Char)
    (htq : tq + 1 ≤ maxAttempts)
    (hm : finalMarker.isPrefixOf (strip r) = false)
    (hq : extract_sql r = q :: qs')
    (hfail : store db q = (Except.error e, db1)) :
    runLoop store (r :: rs) tq msgs db =
      runLoop store rs (tq + 1)
        ((execLoop store qs'
            (msgs ++ [Turn.function sqlName (ExecResult.error (errorText e))]) db1).1
          ++ [Turn.assistant r])
        (execLoop store qs'
            (msgs ++ [Turn.function sqlName (ExecResult.error (errorText e))]) db1).2 := by
  rw [runLoop_continue store r rs tq msgs db (by omega) hm, hq]
  have hex : execute_sql store db q = (ExecResult.error (errorText e), db1) := by
    unfold execute_sql
    rw [hfail]
  simp only [execLoop, hex]

/-- Reply whose first command fails and whose second succeeds. -/
def rTwoCmds : List Char :=
  ("```sql BAD QUERY``` then ```sql\nSELECT 1;\n```").toList

/-- Witness for C6: the failing first command becomes an error observation
and the second command still runs. -/
theorem c6_store_failure_captured_witness :
    0 + 1 ≤ maxAttempts ∧
    finalMarker.isPrefixOf (strip rTwoCmds) = false ∧
    extract_sql rTwoCmds = [("BAD QUERY").toList, ("SELECT 1;").toList] ∧
    wStoreB 0 (("BAD QUERY").toList) =
      (Except.error (("no such table").toList), 0) ∧
    runLoop wStoreB [rTwoCmds] 0 [] 0 =
      runLoop wStoreB [] (0 + 1)
        ((execLoop wStoreB [("SELECT 1;").toList]
            ([] ++ [Turn.function sqlName
              (ExecResult.error (errorText (("no such table").toList)))]) 0).1
          ++ [Turn.assistant rTwoCmds])
        (execLoop wStoreB [("SELECT 1;").toList]
            ([] ++ [Turn.function sqlName
              (ExecResult.error (errorText (("no such table").toList)))]) 0).2 :=
  ⟨by decide, by decide, by decide, by decide,
    c6_store_failure_captured wStoreB 0 0 [] 0 rTwoCmds [] [("SELECT 1;").toList]
      (("BAD QUERY").toList) (("no such table").toList)
      (by decide) (by decide) (by decide) (by decide)⟩

/-- C7: all extracted commands are executed sequentially in extraction
order — each against the state left by its predecessors — with exactly one
observation per command appended in that same order, before the assistant
turn, and the loop then continues. -/
theorem c7_sequential_in_order {DB : Type} (store : Store DB) (db : DB)
    (msgs : List Turn) (tq : Nat) (r : List Char) (rs : List (List Char))
    (htq : tq + 1 ≤ maxAttempts)
    (hm : finalMarker.isPrefixOf (strip r) = false) :
    runLoop store (r :: rs) tq msgs db =
      runLoop store rs (tq + 1)
        (msgs ++ (seqResults store db (extract_sql r)).map (Turn.function sqlName)
          ++ [Turn.assistant r])
        (seqState store db (extract_sql r)) ∧
    (seqResults store db (extract_sql r)).length = (extract_sql r).length := by
  constructor
  · rw [runLoop_continue store r rs tq msgs db (by omega) hm, execLoop_shift,
      execLoop_eq_seq]
  · exact seqResults_length store (extract_sql r) db

/-- Witness for C7 at a two-command reply. -/
theorem c7_sequential_in_order_witness :
    0 + 1 ≤ maxAttempts ∧
    finalMarker.isPrefixOf (strip rTwoCmds) = false ∧
    (runLoop wStoreB [rTwoCmds] 0 [] 0 =
      runLoop wStoreB [] (0 + 1)
        ([] ++ (seqResults wStoreB 0 (extract_sql rTwoCmds)).map
            (Turn.function sqlName)
          ++ [Turn.assistant rTwoCmds])
        (seqState wStoreB 0 (extract_sql rTwoCmds)) ∧
    (seqResults wStoreB 0 (extract_sql rTwoCmds)).length =
      (extract_sql rTwoCmds).length) :=
  ⟨by decide, by decide,
    c7_sequential_in_order wStoreB 0 [] 0 rTwoCmds [] (by decide) (by decide)⟩

-- ## Frame property of the store state

theorem execLoop_state_ro {DB : Type} (store : Store DB)
    (hro : ∀ (d : DB) (q : List Char), (store d q).2 = d) :
    ∀ (qs : List (List Char)) (msgs : List Turn) (db : DB),
      (execLoop store qs msgs db).2 = db := by
  intro qs
  induction qs with
  | nil => intro msgs db; rfl
  | cons q qs ih =>
    intro msgs db
    simp only [execLoop]
    rw [ih, execute_sql_state, hro]

/-- Mutating store: the drop command changes the database state. -/
def mutStore : Store Nat := fun db q =>
  if q = ("DROP TABLE speeches").toList then (Except.ok [], db + 1)
  else (Except.ok [[1]], db)

/-- Reply carrying a mutating command. -/
def rDrop : List Char := ("```sql DROP TABLE speeches```").toList

/-- Counterexample to C9: nothing in the code restricts commands to reads —
executing an oracle-supplied mutating command through the loop leaves the
database in a different state than before. -/
theorem c9_counterexample :
    (runLoop mutStore [rDrop] 0 [] 0).db ≠ 0 := by decide

/-- C9 amended: the loop itself never mutates the database — whenever every
store call is state-preserving, an entire exploration run leaves the
database state unchanged; read-only exploration is guaranteed only under
that assumption on the external store, not enforced by the code. -/
theorem c9_readonly_frame {DB : Type} (store : Store DB)
    (hro : ∀ (d : DB) (q : List Char), (store d q).2 = d) :
    ∀ (replies : List (List Char)) (tq : Nat) (msgs : List Turn) (db : DB),
      (runLoop store replies tq msgs db).db = db := by
  intro replies
  induction replies with
  | nil =>
    intro tq msgs db
    by_cases h : tq + 1 > maxAttempts
    · rw [runLoop_over store [] tq msgs db h]
    · rw [runLoop_noReply store tq msgs db h]
  | cons r rs ih =>
    intro tq msgs db
    by_cases h : tq + 1 > maxAttempts
    · rw [runLoop_over store (r :: rs) tq msgs db h]
    · by_cases hm : finalMarker.isPrefixOf (strip r) = true
      · rw [runLoop_final store r rs tq msgs db h hm]
      · rw [runLoop_continue store r rs tq msgs db h (Bool.eq_false_iff.mpr hm)]
        rw [ih, execLoop_state_ro store hro]

/-- Witness for the amended C9: a read-only store leaves the state intact
through a full five-reply run. -/
theorem c9_readonly_frame_witness :
    (∀ (d : Nat) (q : List Char), (wStore d q).2 = d) ∧
    (runLoop wStore wReplies 0 [] 7).db = 7 :=
  ⟨fun _ _ => rfl, c9_readonly_frame wStore (fun _ _ => rfl) wReplies 0 [] 7⟩

/-- C10: an opening sql tag with no subsequent closing fence yields no
command: the scan finds the opening, fails to find a closing fence, and
returns the empty sequence without an error. -/
theorem c10_unterminated_dropped (s pre rest : List Char)
    (hopen : splitFirst sqlOpenTag s = some (pre, rest))
    (hnoclose : splitFirst codeFence rest = none) :
    extract_sql s = [] := by
  unfold extract_sql
  simp only [extractAux, hopen, hnoclose]

/-- Text whose only sql tag is never closed. -/
def wUnterminated : List Char := ("x ```sql SELECT * FROM t").toList

/-- Witness for C10 at a concrete unterminated block. -/
theorem c10_unterminated_dropped_witness :
    splitFirst sqlOpenTag wUnterminated =
      some (("x ").toList, (" SELECT * FROM t").toList) ∧
    splitFirst codeFence ((" SELECT * FROM t").toList) = none ∧
    extract_sql wUnterminated = [] :=
  ⟨by decide, by decide,
    c10_unterminated_dropped wUnterminated (("x ").toList)
      ((" SELECT * FROM t").toList) (by decide) (by decide)⟩

/-- C2: on a text made of sql-tagged fenced blocks separated by fence-free
segments, the extractor returns exactly one string per block, in order,
each the stripped interior (multi-line interiors included); and on any text
with no opening sql tag at all — untagged fenced blocks allowed — it
returns the empty sequence. -/
theorem c2_extractor_correct :
    (∀ (seg0 : List Char) (blocks : List (List Char × List Char)),
      NoFence seg0 → (∀ p ∈ blocks, BlockOk p) →
      extract_sql (mkText seg0 blocks) = blocks.map (fun p => strip p.1)) ∧
    (∀ s : List Char, splitFirst sqlOpenTag s = none → extract_sql s = []) :=
  ⟨extract_sql_mkText, fun _ h => extract_sql_no_tag h⟩

/-- Leading segment used by the C2 witness. -/
def wSeg0 : List Char := ("Plan:\n").toList

/-- Two well-formed blocks, the second with a multi-line interior. -/
def wBlocks : List (List Char × List Char) :=
  [((" SELECT 1;\n").toList, (" then ").toList),
    (("\nSELECT name\nFROM t;\n").toList, (" done").toList)]

/-- Text with an untagged fenced block only. -/
def wNoTag : List Char := ("see ```python\nx = 1\n``` block").toList

/-- Witness for C2: both parts at concrete inputs. -/
theorem c2_extractor_correct_witness :
    (NoFence wSeg0 ∧ (∀ p ∈ wBlocks, BlockOk p) ∧
      extract_sql (mkText wSeg0 wBlocks) =
        [("SELECT 1;").toList, ("SELECT name\nFROM t;").toList]) ∧
    (splitFirst sqlOpenTag wNoTag = none ∧ extract_sql wNoTag = []) :=
  ⟨⟨by decide, by decide,
      (c2_extractor_correct.1 wSeg0 wBlocks (by decide) (by decide)).trans
        (by decide)⟩,
    by decide, c2_extractor_correct.2 wNoTag (by decide)⟩
